import Mathlib

/-!
Shallow embedding of the vibekit starter template: the file-backed items
storage (src/examples/items-crud/server/storage/items.ts), the path matcher
(src/server/utils/http.ts), the items API route (src/server/routes/api/items.ts),
the JSON body parser (src/server/utils/http.ts), and the client-side router
(the router module of the client source).

Conventions: JavaScript strings are Lean `String`; ISO-8601 timestamps are
modelled as natural numbers, which preserves the equality and ordering
structure the properties use; `randomUUID()` and `new Date()` results are
explicit arguments; promise rejection is `Except.error`; the state of the
backing JSON file is a `FileContent`, and every mutating storage operation
additionally returns the log of `writeFile` payloads it performed, so that
"the file is not written" is statable.
-/

namespace Vibekit

/-- Resource record of the items collection (interface Item in items.ts). -/
structure Item where
  id : String
  name : String
  description : String
  createdAt : Nat
  updatedAt : Nat
deriving DecidableEq

/-- Mutable fields accepted by createItem and updateItem (their data argument). -/
structure ItemData where
  name : String
  description : String
deriving DecidableEq

/-- State of the backing collection file items.json: missing, present but not
valid JSON, or present and holding an array of records. -/
inductive FileContent where
  | absent
  | invalid
  | valid (items : List Item)
deriving DecidableEq

/-- Failure inside the try block of readItems: readFile rejects when the file
is missing, JSON.parse throws when the content is not valid JSON. -/
inductive ReadError where
  | fileNotFound
  | parseError
deriving DecidableEq

/-- Body of the try block of readItems: await readFile, then JSON.parse. -/
def readAndParse : FileContent → Except ReadError (List Item)
  | .absent => .error .fileNotFound
  | .invalid => .error .parseError
  | .valid items => .ok items

/-- readItems (items.ts lines 37-44): the catch clause turns every failure of
the try block into the empty array. -/
def readItems (fs : FileContent) : List Item :=
  match readAndParse fs with
  | .ok items => items
  | .error _ => []

/-- writeItems (items.ts lines 49-52): serialize the full list and overwrite
the file. The write payload is also returned as a log entry. -/
def writeItems (items : List Item) : FileContent × List (List Item) :=
  (FileContent.valid items, [items])

/-- listItems (items.ts lines 57-59). -/
def listItems (fs : FileContent) : List Item :=
  readItems fs

/-- getItem (items.ts lines 64-67): linear scan with Array.prototype.find. -/
def getItem (fs : FileContent) (id : String) : Option Item :=
  (readItems fs).find? (fun item => item.id == id)

/-- createItem (items.ts lines 72-88). The id that randomUUID returns and the
timestamp that Date.toISOString returns are the newId and now arguments.
Result: the created record, the new file state, and the write log. -/
def createItem (fs : FileContent) (newId : String) (now : Nat) (data : ItemData) :
    Item × FileContent × List (List Item) :=
  let items := readItems fs
  let item : Item :=
    { id := newId, name := data.name, description := data.description,
      createdAt := now, updatedAt := now }
  let items2 := items ++ [item]
  let (fs2, w) := writeItems items2
  (item, fs2, w)

/-- Array.prototype.findIndex specialised to the id comparison used by
updateItem and deleteItem, with the sentinel -1 rendered as none. -/
def findIndexById : List Item → String → Option Nat
  | [], _ => none
  | item :: rest, id =>
      if item.id == id then some 0 else (findIndexById rest id).map (fun n => n + 1)

/-- Placeholder record backing the in-range array access items[index]. -/
def dummyItem : Item :=
  { id := "", name := "", description := "", createdAt := 0, updatedAt := 0 }

/-- updateItem (items.ts lines 93-112): find the record, replace the mutable
fields, refresh updatedAt, persist; a missing id returns null before any
write happens. -/
def updateItem (fs : FileContent) (id : String) (data : ItemData) (now : Nat) :
    Option Item × FileContent × List (List Item) :=
  let items := readItems fs
  match findIndexById items id with
  | none => (none, fs, [])
  | some index =>
      let old := items.getD index dummyItem
      let updated : Item :=
        { old with name := data.name, description := data.description, updatedAt := now }
      let items2 := items.set index updated
      let (fs2, w) := writeItems items2
      (some updated, fs2, w)

/-- deleteItem (items.ts lines 117-129): find the record, splice it out,
persist; a missing id returns false before any write happens. -/
def deleteItem (fs : FileContent) (id : String) :
    Bool × FileContent × List (List Item) :=
  let items := readItems fs
  match findIndexById items id with
  | none => (false, fs, [])
  | some index =>
      let items2 := items.eraseIdx index
      let (fs2, w) := writeItems items2
      (true, fs2, w)

/-- One requested create call: the id randomUUID will produce, the clock
reading, and the submitted fields. -/
structure CreateReq where
  newId : String
  now : Nat
  data : ItemData
deriving DecidableEq

/-- Run a sequence of createItem calls, collecting the records the calls
returned, in call order, together with the final file state. -/
def runCreates (fs : FileContent) : List CreateReq → List Item × FileContent
  | [] => ([], fs)
  | req :: rest =>
      let (item, fs2, _) := createItem fs req.newId req.now req.data
      let (items, fs3) := runCreates fs2 rest
      (item :: items, fs3)

/-- JavaScript String.prototype.split at a separator character, over the
underlying character list; the result is never the empty list. -/
def splitChar (sep : Char) : List Char → List (List Char)
  | [] => [[]]
  | c :: rest =>
      match splitChar sep rest with
      | [] => [[]]
      | s :: ss => if c = sep then [] :: s :: ss else (c :: s) :: ss

/-- Segments of a path: split on the slash and drop the empty segments, as in
pattern.split('/').filter(Boolean). -/
def pathSegments (s : String) : List String :=
  ((splitChar '/' s.data).map (fun cs => String.mk cs)).filter (fun seg => seg != "")

/-- JavaScript startsWith(':'): whether the first character is a colon. -/
def colonPrefixed (seg : String) : Bool :=
  match seg.data with
  | [] => false
  | c :: _ => c == ':'

/-- JavaScript slice(1): the segment without its first character, used as the
bound parameter name. -/
def paramName (seg : String) : String :=
  String.mk (seg.data.drop 1)

/-- JavaScript object property assignment params[k] = v on an
insertion-ordered record. -/
def setParam (ps : List (String × String)) (k v : String) : List (String × String) :=
  if ps.any (fun p => p.1 == k) then
    ps.map (fun p => if p.1 == k then (k, v) else p)
  else
    ps ++ [(k, v)]

/-- Loop of matchPath over the two segment lists, accumulating the params
object. decodeURIComponent is the decode argument. -/
def matchSegments (decode : String → String) :
    List String → List String → List (String × String) → Option (List (String × String))
  | [], [], params => some params
  | patternPart :: ps, pathPart :: qs, params =>
      if colonPrefixed patternPart then
        matchSegments decode ps qs (setParam params (paramName patternPart) (decode pathPart))
      else if patternPart == pathPart then
        matchSegments decode ps qs params
      else
        none
  | _, _, _ => none

/-- matchPath (src/server/utils/http.ts lines 108-130): split both strings on
the slash, drop empty segments, require equal segment counts, then compare
segment by segment, binding colon-prefixed pattern segments. -/
def matchPath (decode : String → String) (pattern pathname : String) :
    Option (List (String × String)) :=
  let patternParts := pathSegments pattern
  let pathParts := pathSegments pathname
  if patternParts.length ≠ pathParts.length then none
  else matchSegments decode patternParts pathParts []

/-- matchRoute of the client router (lines 263-288 of its module): textually
the same algorithm as matchPath. -/
def matchRoute (decode : String → String) (pattern path : String) :
    Option (List (String × String)) :=
  let patternParts := pathSegments pattern
  let pathParts := pathSegments path
  if patternParts.length ≠ pathParts.length then none
  else matchSegments decode patternParts pathParts []

/-- Segment lists are compatible: same length, and every pattern segment
either is colon-prefixed (binds) or equals the path segment literally. -/
def segmentsMatch : List String → List String → Bool
  | [], [] => true
  | p :: ps, q :: qs => (colonPrefixed p || p == q) && segmentsMatch ps qs
  | _, _ => false

/-- JSON payload of a response body: a record, an array of records, or the
error envelope object. -/
inductive JsonData where
  | item (it : Item)
  | items (l : List Item)
  | errObj (message : String)
deriving DecidableEq

/-- HTTP response as produced by the helpers of src/server/utils/http.ts:
status code plus optional JSON body; none models res.end() with no payload. -/
structure Response where
  status : Nat
  body : Option JsonData
deriving DecidableEq

/-- sendJson (http.ts lines 30-33). -/
def sendJson (status : Nat) (data : JsonData) : Response :=
  { status := status, body := some data }

/-- ok (http.ts lines 38-45): with no data it writes head 204 and ends with an
empty body, otherwise it sends a 200 JSON response. -/
def ok : Option JsonData → Response
  | none => { status := 204, body := none }
  | some data => sendJson 200 data

/-- notFound of http.ts (lines 78-80). -/
def notFoundResp (message : String) : Response :=
  sendJson 404 (JsonData.errObj message)

/-- Value bound to params.id after a successful match (the pattern of the
items routes always binds id). -/
def paramId (params : List (String × String)) : String :=
  (((params.find? (fun p => p.1 == "id")).map Prod.snd)).getD ""

/-- DELETE branch of handleItems (src/server/routes/api/items.ts lines 82-93),
the branch reached when the request method is DELETE (the earlier branches
require method GET, POST, or PUT). Result: the response sent (none when the
request is not handled and the function returns false), the file state, and
the write log. -/
def handleItemsDelete (decode : String → String) (path : String) (fs : FileContent) :
    Option Response × FileContent × List (List Item) :=
  match matchPath decode "/api/items/:id" path with
  | none => (none, fs, [])
  | some params =>
      let id := paramId params
      match getItem fs id with
      | none => (some (notFoundResp "Item not found"), fs, [])
      | some _ =>
          let (_, fs2, w) := deleteItem fs id
          (some (ok none), fs2, w)

/-- Raw request body as consumed by the json helper: empty, well-formed JSON
parsing to a value, or non-empty malformed JSON. -/
inductive RequestBody (α : Type) where
  | empty
  | wellFormed (v : α)
  | malformed

/-- Failure raised by JSON.parse inside the json helper. -/
inductive BodyError where
  | parseError
deriving DecidableEq

/-- json (src/server/utils/http.ts lines 11-25): an empty body yields the
empty object (the emptyObject argument models the literal cast to T); a
well-formed body yields its parse; a malformed body makes JSON.parse throw,
which nothing in the function catches, so the promise rejects. -/
def json {α : Type} (emptyObject : α) : RequestBody α → Except BodyError α
  | .empty => .ok emptyObject
  | .wellFormed v => .ok v
  | .malformed => .error .parseError

/-- Read operation as section 4.1 of the design document describes it: a
parse failure propagates instead of being recovered into a value. Stated for
comparison with readItems, which is translated from the source. -/
def specRead : FileContent → Except ReadError (List Item)
  | .absent => .ok []
  | .invalid => .error .parseError
  | .valid items => .ok items

/-- Identifier of a registered route handler of the client router. -/
abbrev HandlerId := Nat

/-- Identifier of a cleanup function a view handler may return. -/
abbrev CleanupId := Nat

/-- Module state of the client router: registered routes in insertion order
(a JavaScript Map preserves it), the optional 404 handler, and the cleanup
retained from the currently mounted view. -/
structure RouterState where
  routes : List (String × HandlerId)
  notFoundHandler : Option HandlerId
  currentCleanup : Option CleanupId
deriving DecidableEq

/-- Awaited step of one handleRoute run, in execution order: running a
cleanup function, or running a view handler. -/
inductive RouteEvent where
  | cleanupRun (c : CleanupId)
  | render (h : HandlerId)
deriving DecidableEq

/-- First registered route whose pattern matches the path: the for-of loop of
handleRoute over the routes map. -/
def firstMatch (decode : String → String) (routes : List (String × HandlerId))
    (path : String) : Option (HandlerId × List (String × String)) :=
  match routes with
  | [] => none
  | (pattern, h) :: rest =>
      match matchRoute decode pattern path with
      | some params => some (h, params)
      | none => firstMatch decode rest path

/-- handleRoute of the client router (lines 293-334 of its module). The
handlerReturns argument models which cleanup function each handler returns
(none when the handler's result is not a function, including when the handler
throws and the catch block swallows the error). The returned trace lists the
awaited events in execution order: the pending cleanup, if any, is awaited
and cleared before the route loop runs the matched handler. -/
def handleRoute (decode : String → String) (handlerReturns : HandlerId → Option CleanupId)
    (st : RouterState) (path : String) : RouterState × List RouteEvent :=
  let cleanupEvents :=
    match st.currentCleanup with
    | some c => [RouteEvent.cleanupRun c]
    | none => []
  let st1 : RouterState := { st with currentCleanup := none }
  match firstMatch decode st1.routes path with
  | some (h, _) =>
      ({ st1 with currentCleanup := handlerReturns h },
        cleanupEvents ++ [RouteEvent.render h])
  | none =>
      match st1.notFoundHandler with
      | some h =>
          ({ st1 with currentCleanup := handlerReturns h },
            cleanupEvents ++ [RouteEvent.render h])
      | none => (st1, cleanupEvents)

/-- Traces of a sequence of navigations, concatenated in order. -/
def runRoutes (decode : String → String) (handlerReturns : HandlerId → Option CleanupId)
    (st : RouterState) : List String → List RouteEvent
  | [] => []
  | path :: rest =>
      let (st2, tr) := handleRoute decode handlerReturns st path
      tr ++ runRoutes decode handlerReturns st2 rest

theorem listItems_valid (items : List Item) :
    listItems (FileContent.valid items) = items := rfl

theorem runCreates_spec (reqs : List CreateReq) :
    ∀ fs : FileContent,
      listItems (runCreates fs reqs).2 = listItems fs ++ (runCreates fs reqs).1 ∧
      (runCreates fs reqs).1.map Item.id = reqs.map CreateReq.newId ∧
      ∀ item ∈ (runCreates fs reqs).1, item.createdAt = item.updatedAt := by
  induction reqs with
  | nil =>
      intro fs
      simp [runCreates]
  | cons req rest ih =>
      intro fs
      obtain ⟨h1, h2, h3⟩ := ih (FileContent.valid (readItems fs ++
        [{ id := req.newId, name := req.data.name, description := req.data.description,
           createdAt := req.now, updatedAt := req.now }]))
      refine ⟨?_, ?_, ?_⟩
      · simpa [runCreates, createItem, writeItems, listItems, readItems, readAndParse,
          List.append_assoc] using h1
      · simpa [runCreates, createItem, writeItems] using h2
      · intro item hitem
        simp [runCreates, createItem, writeItems] at hitem
        rcases hitem with h | h
        · subst h; rfl
        · exact h3 item h

/-- C1: starting from an empty collection, a sequence of create operations
followed by list returns exactly the created records in insertion order,
with pairwise distinct ids (given that randomUUID returned pairwise distinct
ids) and with createdAt equal to updatedAt on every record. -/
theorem creates_then_list (reqs : List CreateReq)
    (hids : (reqs.map CreateReq.newId).Nodup) :
    listItems (runCreates FileContent.absent reqs).2 = (runCreates FileContent.absent reqs).1 ∧
    ((runCreates FileContent.absent reqs).1.map Item.id).Nodup ∧
    ∀ item ∈ (runCreates FileContent.absent reqs).1, item.createdAt = item.updatedAt := by
  obtain ⟨h1, h2, h3⟩ := runCreates_spec reqs FileContent.absent
  refine ⟨?_, ?_, h3⟩
  · simpa [listItems, readItems, readAndParse] using h1
  · rw [h2]; exact hids

theorem creates_then_list_witness :
    (([⟨"a", 1, ⟨"x", "d1"⟩⟩, ⟨"b", 2, ⟨"y", "d2"⟩⟩] : List CreateReq).map CreateReq.newId).Nodup ∧
    listItems (runCreates FileContent.absent
        [⟨"a", 1, ⟨"x", "d1"⟩⟩, ⟨"b", 2, ⟨"y", "d2"⟩⟩]).2
      = (runCreates FileContent.absent [⟨"a", 1, ⟨"x", "d1"⟩⟩, ⟨"b", 2, ⟨"y", "d2"⟩⟩]).1 :=
  ⟨by decide, (creates_then_list [⟨"a", 1, ⟨"x", "d1"⟩⟩, ⟨"b", 2, ⟨"y", "d2"⟩⟩] (by decide)).1⟩

theorem findIndexById_eq_none (items : List Item) (id : String)
    (h : ∀ item ∈ items, item.id ≠ id) : findIndexById items id = none := by
  induction items with
  | nil => rfl
  | cons it rest ih =>
      have hne : (it.id == id) = false :=
        beq_eq_false_iff_ne.mpr (h it (List.mem_cons_self it rest))
      simp [findIndexById, hne, ih (fun x hx => h x (List.mem_cons_of_mem it hx))]

/-- C3: updateItem on an id that is not present returns null, performs no
file write, and leaves the file state unchanged. -/
theorem updateItem_absent (fs : FileContent) (id : String) (data : ItemData) (now : Nat)
    (h : ∀ item ∈ listItems fs, item.id ≠ id) :
    updateItem fs id data now = (none, fs, []) := by
  have hfind : findIndexById (readItems fs) id = none := findIndexById_eq_none _ _ h
  simp [updateItem, hfind]

theorem updateItem_absent_witness :
    (∀ item ∈ listItems (FileContent.valid
        [{ id := "a", name := "n", description := "", createdAt := 0, updatedAt := 0 }]),
      item.id ≠ "b") ∧
    updateItem (FileContent.valid
        [{ id := "a", name := "n", description := "", createdAt := 0, updatedAt := 0 }])
        "b" ⟨"m", "e"⟩ 5
      = (none, FileContent.valid
          [{ id := "a", name := "n", description := "", createdAt := 0, updatedAt := 0 }], []) :=
  ⟨by decide, updateItem_absent _ _ _ _ (by decide)⟩

theorem getD_set_ne (l : List Item) (index j : Nat) (a d : Item) (hj : j ≠ index) :
    (l.set index a).getD j d = l.getD j d := by
  simp [List.getD, List.getElem?_set_ne (fun h => hj h.symm)]

/-- C2: updateItem on a present id returns the updated record and overwrites
the file with the collection where only the record at the found index is
replaced; the update preserves id and createdAt, sets exactly the supplied
name and description, and moves updatedAt to the clock value, which is at or
after the previous updatedAt whenever the clock has not gone backwards; every
other position of the collection is unchanged. -/
theorem updateItem_found (fs : FileContent) (id : String) (data : ItemData) (now : Nat)
    (index : Nat) (hfind : findIndexById (listItems fs) id = some index)
    (hclock : ((listItems fs).getD index dummyItem).updatedAt ≤ now) :
    ∃ u : Item,
      updateItem fs id data now =
        (some u, FileContent.valid ((listItems fs).set index u),
          [(listItems fs).set index u]) ∧
      u.id = ((listItems fs).getD index dummyItem).id ∧
      u.createdAt = ((listItems fs).getD index dummyItem).createdAt ∧
      u.name = data.name ∧
      u.description = data.description ∧
      ((listItems fs).getD index dummyItem).updatedAt ≤ u.updatedAt ∧
      ∀ j, j ≠ index →
        ((listItems fs).set index u).getD j dummyItem = (listItems fs).getD j dummyItem := by
  have hfind2 : findIndexById (readItems fs) id = some index := hfind
  refine ⟨{ (listItems fs).getD index dummyItem with
      name := data.name, description := data.description, updatedAt := now },
    ?_, rfl, rfl, rfl, rfl, hclock, ?_⟩
  · simp only [updateItem, hfind2, writeItems, listItems]
  · intro j hj
    exact getD_set_ne _ _ _ _ _ hj

theorem updateItem_found_witness :
    findIndexById (listItems (FileContent.valid
        [{ id := "a", name := "n", description := "", createdAt := 0, updatedAt := 3 }]))
        "a" = some 0 ∧
    ((listItems (FileContent.valid
        [{ id := "a", name := "n", description := "", createdAt := 0, updatedAt := 3 }])).getD
        0 dummyItem).updatedAt ≤ 5 ∧
    ∃ u : Item,
      updateItem (FileContent.valid
          [{ id := "a", name := "n", description := "", createdAt := 0, updatedAt := 3 }])
          "a" ⟨"m", "e"⟩ 5 =
        (some u,
          FileContent.valid ((listItems (FileContent.valid
            [{ id := "a", name := "n", description := "", createdAt := 0, updatedAt := 3 }])).set 0 u),
          [(listItems (FileContent.valid
            [{ id := "a", name := "n", description := "", createdAt := 0, updatedAt := 3 }])).set 0 u]) ∧
      u.id = ((listItems (FileContent.valid
          [{ id := "a", name := "n", description := "", createdAt := 0, updatedAt := 3 }])).getD
          0 dummyItem).id ∧
      u.createdAt = ((listItems (FileContent.valid
          [{ id := "a", name := "n", description := "", createdAt := 0, updatedAt := 3 }])).getD
          0 dummyItem).createdAt ∧
      u.name = "m" ∧
      u.description = "e" ∧
      ((listItems (FileContent.valid
          [{ id := "a", name := "n", description := "", createdAt := 0, updatedAt := 3 }])).getD
          0 dummyItem).updatedAt ≤ u.updatedAt ∧
      ∀ j, j ≠ 0 →
        ((listItems (FileContent.valid
            [{ id := "a", name := "n", description := "", createdAt := 0, updatedAt := 3 }])).set
            0 u).getD j dummyItem
          = (listItems (FileContent.valid
            [{ id := "a", name := "n", description := "", createdAt := 0, updatedAt := 3 }])).getD
            j dummyItem :=
  ⟨by decide, by decide, updateItem_found _ "a" ⟨"m", "e"⟩ 5 0 (by decide) (by decide)⟩

theorem findIndexById_some (items : List Item) (id : String) (index : Nat)
    (h : findIndexById items id = some index) :
    index < items.length ∧ (items.getD index dummyItem).id = id := by
  induction items generalizing index with
  | nil => cases h
  | cons it rest ih =>
      by_cases hid : (it.id == id) = true
      · simp only [findIndexById, hid, if_true, Option.some.injEq] at h
        subst h
        exact ⟨Nat.succ_pos _, by simpa using hid⟩
      · simp only [findIndexById, hid, if_false, Bool.false_eq_true, Option.map_eq_some'] at h
        obtain ⟨n, hn, hidx⟩ := h
        obtain ⟨hlt, hget⟩ := ih n hn
        subst hidx
        exact ⟨Nat.succ_lt_succ hlt, hget⟩

theorem eraseIdx_no_id (items : List Item) (id : String) (index : Nat)
    (hnodup : (items.map Item.id).Nodup)
    (hfind : findIndexById items id = some index) :
    ∀ item ∈ items.eraseIdx index, item.id ≠ id := by
  induction items generalizing index with
  | nil => cases hfind
  | cons it rest ih =>
      by_cases hid : (it.id == id) = true
      · have hideq : it.id = id := by simpa using hid
        simp only [findIndexById, hid, if_true, Option.some.injEq] at hfind
        subst hfind
        intro item hitem hcontra
        have hmem : item.id ∈ List.map Item.id rest := List.mem_map_of_mem Item.id hitem
        rw [hcontra, ← hideq] at hmem
        simp only [List.map_cons, List.nodup_cons] at hnodup
        exact hnodup.1 hmem
      · simp only [findIndexById, hid, if_false, Bool.false_eq_true, Option.map_eq_some'] at hfind
        obtain ⟨n, hn, hidx⟩ := hfind
        subst hidx
        intro item hitem
        have herase : (it :: rest).eraseIdx (n + 1) = it :: rest.eraseIdx n := rfl
        rw [herase] at hitem
        rcases List.mem_cons.mp hitem with rfl | hitem2
        · simpa using hid
        · simp only [List.map_cons, List.nodup_cons] at hnodup
          exact ih n hnodup.2 hn item hitem2

/-- C4: deleteItem on a present id (in a collection whose ids are pairwise
distinct, the collection invariant) returns true after writing the collection
with exactly the record at the found index removed, where that record carries
the requested id; no surviving record carries the id, so running deleteItem
again on the resulting state returns false, writes nothing, and leaves the
file unchanged. -/
theorem deleteItem_twice (fs : FileContent) (id : String) (index : Nat)
    (hnodup : ((listItems fs).map Item.id).Nodup)
    (hfind : findIndexById (listItems fs) id = some index) :
    deleteItem fs id
      = (true, FileContent.valid ((listItems fs).eraseIdx index),
          [(listItems fs).eraseIdx index]) ∧
    ((listItems fs).getD index dummyItem).id = id ∧
    (listItems fs).length = ((listItems fs).eraseIdx index).length + 1 ∧
    (∀ item ∈ (listItems fs).eraseIdx index, item.id ≠ id) ∧
    deleteItem (FileContent.valid ((listItems fs).eraseIdx index)) id
      = (false, FileContent.valid ((listItems fs).eraseIdx index), []) := by
  have hfind2 : findIndexById (readItems fs) id = some index := hfind
  obtain ⟨hlt, hget⟩ := findIndexById_some (listItems fs) id index hfind
  have hnone : ∀ item ∈ (listItems fs).eraseIdx index, item.id ≠ id :=
    eraseIdx_no_id (listItems fs) id index hnodup hfind
  refine ⟨?_, hget, ?_, hnone, ?_⟩
  · simp only [deleteItem, hfind2, writeItems, listItems]
  · have := List.length_eraseIdx_of_lt hlt
    omega
  · have hfnone : findIndexById ((listItems fs).eraseIdx index) id = none :=
      findIndexById_eq_none _ _ hnone
    simp only [deleteItem, readItems, readAndParse] at hfnone ⊢
    simp [hfnone]

theorem deleteItem_twice_witness :
    ((listItems (FileContent.valid
        [{ id := "a", name := "n", description := "", createdAt := 0, updatedAt := 0 },
         { id := "b", name := "m", description := "", createdAt := 1, updatedAt := 1 }])).map
        Item.id).Nodup ∧
    findIndexById (listItems (FileContent.valid
        [{ id := "a", name := "n", description := "", createdAt := 0, updatedAt := 0 },
         { id := "b", name := "m", description := "", createdAt := 1, updatedAt := 1 }]))
        "a" = some 0 ∧
    deleteItem (FileContent.valid
        [{ id := "a", name := "n", description := "", createdAt := 0, updatedAt := 0 },
         { id := "b", name := "m", description := "", createdAt := 1, updatedAt := 1 }]) "a"
      = (true, FileContent.valid ((listItems (FileContent.valid
          [{ id := "a", name := "n", description := "", createdAt := 0, updatedAt := 0 },
           { id := "b", name := "m", description := "", createdAt := 1, updatedAt := 1 }])).eraseIdx 0),
          [(listItems (FileContent.valid
            [{ id := "a", name := "n", description := "", createdAt := 0, updatedAt := 0 },
             { id := "b", name := "m", description := "", createdAt := 1, updatedAt := 1 }])).eraseIdx 0]) :=
  ⟨by decide, by decide,
    (deleteItem_twice (FileContent.valid
        [{ id := "a", name := "n", description := "", createdAt := 0, updatedAt := 0 },
         { id := "b", name := "m", description := "", createdAt := 1, updatedAt := 1 }])
      "a" 0 (by decide) (by decide)).1⟩

theorem matchSegments_isSome (decode : String → String) :
    ∀ (ps qs : List String) (params : List (String × String)),
      (matchSegments decode ps qs params).isSome = segmentsMatch ps qs := by
  intro ps
  induction ps with
  | nil =>
      intro qs params
      cases qs <;> simp [matchSegments, segmentsMatch]
  | cons p ps2 ih =>
      intro qs params
      cases qs with
      | nil => simp [matchSegments, segmentsMatch]
      | cons q qs2 =>
          by_cases hc : colonPrefixed p
          · simp [matchSegments, segmentsMatch, hc, ih]
          · by_cases he : (p == q) = true
            · simp [matchSegments, segmentsMatch, hc, he, ih]
            · simp [matchSegments, segmentsMatch, hc, he]

theorem segmentsMatch_length :
    ∀ ps qs : List String, segmentsMatch ps qs = true → ps.length = qs.length := by
  intro ps
  induction ps with
  | nil =>
      intro qs h
      cases qs with
      | nil => rfl
      | cons q qs2 => simp [segmentsMatch] at h
  | cons p ps2 ih =>
      intro qs h
      cases qs with
      | nil => simp [segmentsMatch] at h
      | cons q qs2 =>
          simp only [segmentsMatch, Bool.and_eq_true] at h
          simp [ih qs2 h.2]

/-- C5: the path matcher accepts /api/items/42 against the pattern
/api/items/:id, binding id to the decoded segment 42; it rejects
/api/items/42/extra (extra segment) and /api/items (missing segment); and in
general a match succeeds exactly when the two segment lists have equal length
and every pattern segment either starts with a colon, binding a parameter, or
equals the corresponding path segment literally. -/
theorem matchPath_spec (decode : String → String) (h42 : decode "42" = "42") :
    matchPath decode "/api/items/:id" "/api/items/42" = some [("id", "42")] ∧
    matchPath decode "/api/items/:id" "/api/items/42/extra" = none ∧
    matchPath decode "/api/items/:id" "/api/items" = none ∧
    ∀ pattern path, (matchPath decode pattern path).isSome
        = segmentsMatch (pathSegments pattern) (pathSegments path) := by
  refine ⟨?_, rfl, rfl, ?_⟩
  · have h : matchPath decode "/api/items/:id" "/api/items/42"
        = some [("id", decode "42")] := rfl
    rw [h, h42]
  · intro pattern path
    by_cases hlen : (pathSegments pattern).length = (pathSegments path).length
    · simp [matchPath, hlen, matchSegments_isSome]
    · have hsm : segmentsMatch (pathSegments pattern) (pathSegments path) = false := by
        cases hv : segmentsMatch (pathSegments pattern) (pathSegments path)
        · rfl
        · exact absurd (segmentsMatch_length _ _ hv) hlen
      simp [matchPath, hlen, hsm]

theorem matchPath_spec_witness :
    (fun s => s) "42" = "42" ∧
    matchPath (fun s => s) "/api/items/:id" "/api/items/42" = some [("id", "42")] :=
  ⟨rfl, (matchPath_spec (fun s => s) rfl).1⟩

theorem splitChar_ne_nil (sep : Char) (cs : List Char) : splitChar sep cs ≠ [] := by
  cases cs with
  | nil => simp [splitChar]
  | cons c rest =>
      cases h : splitChar sep rest with
      | nil => simp [splitChar, h]
      | cons s ss => by_cases hc : c = sep <;> simp [splitChar, h, hc]

theorem splitChar_append_sep (sep : Char) (xs ys : List Char) :
    splitChar sep (xs ++ sep :: ys) = splitChar sep xs ++ splitChar sep ys := by
  induction xs with
  | nil =>
      cases h : splitChar sep ys with
      | nil => exact absurd h (splitChar_ne_nil sep ys)
      | cons s ss => simp [splitChar, h]
  | cons c xs2 ih =>
      cases h : splitChar sep xs2 with
      | nil => exact absurd h (splitChar_ne_nil sep xs2)
      | cons s ss =>
          by_cases hc : c = sep <;>
            simp [splitChar, List.cons_append, ih, h, hc]

theorem pathSegments_append (a b : String) :
    pathSegments (a ++ "/" ++ b) = pathSegments a ++ pathSegments b := by
  have hd : ("/" : String).data = ['/'] := rfl
  have hdata : (a ++ "/" ++ b).data = a.data ++ '/' :: b.data := by
    simp [String.data_append, hd]
  simp [pathSegments, hdata, splitChar_append_sep, List.map_append, List.filter_append]

theorem pathSegments_trailing (p : String) :
    pathSegments (p ++ "/") = pathSegments p := by
  have hd : ("/" : String).data = ['/'] := rfl
  have hdata : (p ++ "/").data = p.data ++ '/' :: [] := by
    simp [String.data_append, hd]
  have hnil : List.filter (fun seg => seg != "") ([String.mk []]) = [] := by decide
  simp [pathSegments, hdata, splitChar_append_sep, splitChar, List.map_append,
    List.filter_append, hnil]

theorem pathSegments_double (a b : String) :
    pathSegments (a ++ "//" ++ b) = pathSegments (a ++ "/" ++ b) := by
  have h1 : a ++ "//" ++ b = (a ++ "/") ++ "/" ++ b := by
    rw [String.append_assoc a "/" "/", show ("/" : String) ++ "/" = "//" from rfl]
  rw [h1, pathSegments_append (a ++ "/") b, pathSegments_trailing a,
    pathSegments_append a b]

theorem matchPath_congr (decode : String → String) (pat1 pat2 path1 path2 : String)
    (hp : pathSegments pat1 = pathSegments pat2)
    (hq : pathSegments path1 = pathSegments path2) :
    matchPath decode pat1 path1 = matchPath decode pat2 path2 := by
  simp [matchPath, hp, hq]

/-- C10: both matchers are invariant under empty path segments, because both
split on the slash and drop empty segments: any two paths (or patterns) with
the same nonempty segments match identically, so a trailing slash or a
doubled slash changes nothing; and the client matchRoute agrees with the
server matchPath on all inputs. -/
theorem matchPath_slash_invariant (decode : String → String) :
    (∀ pattern path1 path2, pathSegments path1 = pathSegments path2 →
        matchPath decode pattern path1 = matchPath decode pattern path2) ∧
    (∀ pat1 pat2 path, pathSegments pat1 = pathSegments pat2 →
        matchPath decode pat1 path = matchPath decode pat2 path) ∧
    (∀ pattern path, matchPath decode pattern (path ++ "/")
        = matchPath decode pattern path) ∧
    (∀ pattern path, matchPath decode (pattern ++ "/") path
        = matchPath decode pattern path) ∧
    (∀ pattern a b, matchPath decode pattern (a ++ "//" ++ b)
        = matchPath decode pattern (a ++ "/" ++ b)) ∧
    (∀ a b path, matchPath decode (a ++ "//" ++ b) path
        = matchPath decode (a ++ "/" ++ b) path) ∧
    (∀ pattern path, matchRoute decode pattern path = matchPath decode pattern path) := by
  refine ⟨?_, ?_, ?_, ?_, ?_, ?_, fun pattern path => rfl⟩
  · exact fun pattern p1 p2 h => matchPath_congr decode pattern pattern p1 p2 rfl h
  · exact fun p1 p2 path h => matchPath_congr decode p1 p2 path path h rfl
  · exact fun pattern path => matchPath_congr decode pattern pattern _ _ rfl
      (pathSegments_trailing path)
  · exact fun pattern path => matchPath_congr decode _ _ path path
      (pathSegments_trailing pattern) rfl
  · exact fun pattern a b => matchPath_congr decode pattern pattern _ _ rfl
      (pathSegments_double a b)
  · exact fun a b path => matchPath_congr decode _ _ path path
      (pathSegments_double a b) rfl

theorem matchPath_slash_invariant_witness :
    pathSegments "/api/items/42/" = pathSegments "/api/items/42" ∧
    matchPath (fun s => s) "/api/items/:id" "/api/items/42/"
      = matchPath (fun s => s) "/api/items/:id" "/api/items/42" :=
  ⟨by decide, (matchPath_slash_invariant (fun s => s)).1
    "/api/items/:id" "/api/items/42/" "/api/items/42" (by decide)⟩

theorem find?_id_isSome_eq (items : List Item) (id : String) :
    (items.find? (fun item => item.id == id)).isSome = (findIndexById items id).isSome := by
  induction items with
  | nil => rfl
  | cons it rest ih =>
      by_cases hid : (it.id == id) = true
      · simp [List.find?, findIndexById, hid]
      · simp [List.find?, findIndexById, hid, ih]

/-- C6 counterexample: on a one-record collection, a DELETE of the existing id
is answered with status 204 and an empty body, not with status 200 as the
specification table states. -/
theorem deleteRoute_status_counterexample :
    ((handleItemsDelete (fun s => s) "/api/items/a" (FileContent.valid
        [{ id := "a", name := "n", description := "", createdAt := 0, updatedAt := 0 }])).1
      = some { status := 204, body := none }) ∧ (204 : Nat) ≠ 200 :=
  ⟨by decide, by decide⟩

/-- C6 amended: a DELETE of an existing id removes exactly the record at the
found index and responds with status 204 and an empty body; a DELETE of an
absent id responds 404 and leaves the file untouched and unwritten. -/
theorem deleteRoute_spec (decode : String → String) (path : String) (fs : FileContent)
    (params : List (String × String))
    (hmatch : matchPath decode "/api/items/:id" path = some params) :
    (∀ index, findIndexById (listItems fs) (paramId params) = some index →
        handleItemsDelete decode path fs
          = (some { status := 204, body := none },
              FileContent.valid ((listItems fs).eraseIdx index),
              [(listItems fs).eraseIdx index])) ∧
    ((∀ item ∈ listItems fs, item.id ≠ paramId params) →
        handleItemsDelete decode path fs
          = (some (notFoundResp "Item not found"), fs, [])) := by
  constructor
  · intro index hfind
    have hfind2 : findIndexById (readItems fs) (paramId params) = some index := hfind
    have hgets : (getItem fs (paramId params)).isSome = true := by
      rw [getItem, find?_id_isSome_eq, hfind2]
      rfl
    obtain ⟨it, hit⟩ := Option.isSome_iff_exists.mp hgets
    have hdel : deleteItem fs (paramId params)
        = (true, FileContent.valid ((listItems fs).eraseIdx index),
            [(listItems fs).eraseIdx index]) := by
      simp only [deleteItem, hfind2, writeItems, listItems]
    simp [handleItemsDelete, hmatch, hit, hdel, ok]
  · intro habsent
    have hgets : getItem fs (paramId params) = none := by
      rw [getItem, List.find?_eq_none]
      intro item hmem
      simpa using habsent item hmem
    simp [handleItemsDelete, hmatch, hgets]

theorem deleteRoute_spec_witness :
    matchPath (fun s => s) "/api/items/:id" "/api/items/b" = some [("id", "b")] ∧
    (∀ item ∈ listItems (FileContent.valid
        [{ id := "a", name := "n", description := "", createdAt := 0, updatedAt := 0 }]),
      item.id ≠ paramId [("id", "b")]) ∧
    handleItemsDelete (fun s => s) "/api/items/b" (FileContent.valid
        [{ id := "a", name := "n", description := "", createdAt := 0, updatedAt := 0 }])
      = (some (notFoundResp "Item not found"), FileContent.valid
          [{ id := "a", name := "n", description := "", createdAt := 0, updatedAt := 0 }], []) :=
  ⟨by decide, by decide,
    (deleteRoute_spec (fun s => s) "/api/items/b" (FileContent.valid
        [{ id := "a", name := "n", description := "", createdAt := 0, updatedAt := 0 }])
      [("id", "b")] (by decide)).2 (by decide)⟩

/-- C7 counterexample: on a file that exists but holds invalid JSON, readItems
returns the empty array because the catch clause recovers every failure,
whereas the specified read propagates a parse error; the two disagree at this
input. -/
theorem readItems_invalid_counterexample :
    readItems FileContent.invalid = [] ∧
    specRead FileContent.invalid = Except.error ReadError.parseError ∧
    Except.ok (readItems FileContent.invalid) ≠ specRead FileContent.invalid := by
  refine ⟨rfl, rfl, ?_⟩
  intro h
  simp [readItems, readAndParse, specRead] at h

/-- C7 amended: readItems returns the parsed array when the file holds valid
JSON, and the empty array both when the file is missing and when the file
holds invalid JSON; every failure inside the try block, the parse failure
included, is recovered to the empty array rather than propagated. -/
theorem readItems_spec_amended :
    (∀ items, readItems (FileContent.valid items) = items) ∧
    readItems FileContent.absent = [] ∧
    readItems FileContent.invalid = [] ∧
    (∀ fs e, readAndParse fs = Except.error e → readItems fs = []) := by
  refine ⟨fun items => rfl, rfl, rfl, ?_⟩
  intro fs e h
  simp [readItems, h]

theorem readItems_spec_amended_witness :
    readAndParse FileContent.invalid = Except.error ReadError.parseError ∧
    readItems FileContent.invalid = [] :=
  ⟨rfl, readItems_spec_amended.2.2.2 FileContent.invalid ReadError.parseError rfl⟩

/-- C8 counterexample: a malformed non-empty body makes the json helper fail
with a parse error instead of yielding the empty object. -/
theorem json_malformed_counterexample :
    json () RequestBody.malformed = Except.error BodyError.parseError ∧
    json () RequestBody.malformed ≠ Except.ok () := by
  refine ⟨rfl, ?_⟩
  intro h
  simp [json] at h

/-- C8 amended: only a fully empty body yields the empty object; a well-formed
body yields its parsed value; a malformed non-empty body raises a parse error
that propagates out of the json helper, where the top-level request handler
surfaces it as a server error. -/
theorem json_spec_amended {α : Type} (emptyObject : α) :
    json emptyObject RequestBody.empty = Except.ok emptyObject ∧
    (∀ v, json emptyObject (RequestBody.wellFormed v) = Except.ok v) ∧
    json emptyObject RequestBody.malformed = Except.error BodyError.parseError :=
  ⟨rfl, fun _ => rfl, rfl⟩

theorem json_spec_amended_witness :
    json (0 : Nat) RequestBody.empty = Except.ok 0 :=
  (json_spec_amended (0 : Nat)).1

theorem handleRoute_no_cleanup (decode : String → String)
    (handlerReturns : HandlerId → Option CleanupId) (st : RouterState) (path : String)
    (c : CleanupId) (hst : st.currentCleanup ≠ some c)
    (hfresh : ∀ h, handlerReturns h ≠ some c) :
    RouteEvent.cleanupRun c ∉ (handleRoute decode handlerReturns st path).2 ∧
    (handleRoute decode handlerReturns st path).1.currentCleanup ≠ some c := by
  cases hcur : st.currentCleanup with
  | none =>
      cases hm : firstMatch decode st.routes path with
      | some hp =>
          obtain ⟨h, ps⟩ := hp
          simp [handleRoute, hcur, hm, hfresh h]
      | none =>
          cases hnf : st.notFoundHandler with
          | some h => simp [handleRoute, hcur, hm, hnf, hfresh h]
          | none => simp [handleRoute, hcur, hm, hnf]
  | some c2 =>
      have hne : c ≠ c2 := fun hcc => hst (hcur.trans (congrArg some hcc.symm))
      cases hm : firstMatch decode st.routes path with
      | some hp =>
          obtain ⟨h, ps⟩ := hp
          simp [handleRoute, hcur, hm, hfresh h, hne]
      | none =>
          cases hnf : st.notFoundHandler with
          | some h => simp [handleRoute, hcur, hm, hnf, hfresh h, hne]
          | none => simp [handleRoute, hcur, hm, hnf, hne]

theorem runRoutes_no_cleanup (decode : String → String)
    (handlerReturns : HandlerId → Option CleanupId) (c : CleanupId)
    (hfresh : ∀ h, handlerReturns h ≠ some c) :
    ∀ (paths : List String) (st : RouterState), st.currentCleanup ≠ some c →
      RouteEvent.cleanupRun c ∉ runRoutes decode handlerReturns st paths := by
  intro paths
  induction paths with
  | nil =>
      intro st hst
      simp [runRoutes]
  | cons path rest ih =>
      intro st hst
      obtain ⟨h1, h2⟩ := handleRoute_no_cleanup decode handlerReturns st path c hst hfresh
      cases hhr : handleRoute decode handlerReturns st path with
      | mk st2 tr =>
          rw [hhr] at h1 h2
          simp only [runRoutes, hhr, List.mem_append, not_or]
          exact ⟨h1, ih st2 h2⟩

/-- C9: when the mounted view registered a cleanup, any navigation runs that
cleanup exactly once, as the first awaited step of the transition and before
the next view's handler renders; when a route matches, the cleanup and the
matched handler's render are exactly the two awaited events, in that order;
and, since every mount returns a fresh closure (no handler returns this
cleanup function again), no later navigation ever runs it again. -/
theorem handleRoute_cleanup_once (decode : String → String)
    (handlerReturns : HandlerId → Option CleanupId) (st : RouterState) (path : String)
    (c : CleanupId) (hc : st.currentCleanup = some c)
    (hfresh : ∀ h, handlerReturns h ≠ some c) :
    (∃ rest, (handleRoute decode handlerReturns st path).2
        = RouteEvent.cleanupRun c :: rest ∧
      ∀ e ∈ rest, ∀ c2, e ≠ RouteEvent.cleanupRun c2) ∧
    (∀ h ps, firstMatch decode st.routes path = some (h, ps) →
      (handleRoute decode handlerReturns st path).2
        = [RouteEvent.cleanupRun c, RouteEvent.render h]) ∧
    ∀ paths : List String,
      RouteEvent.cleanupRun c ∉
        runRoutes decode handlerReturns (handleRoute decode handlerReturns st path).1 paths := by
  have hres : (handleRoute decode handlerReturns st path).1.currentCleanup ≠ some c := by
    cases hm : firstMatch decode st.routes path with
    | some hp =>
        obtain ⟨h, ps⟩ := hp
        simp [handleRoute, hc, hm, hfresh h]
    | none =>
        cases hnf : st.notFoundHandler with
        | some h => simp [handleRoute, hc, hm, hnf, hfresh h]
        | none => simp [handleRoute, hc, hm, hnf]
  refine ⟨?_, ?_, fun paths => runRoutes_no_cleanup decode handlerReturns c hfresh paths _ hres⟩
  · cases hm : firstMatch decode st.routes path with
    | some hp =>
        obtain ⟨h, ps⟩ := hp
        refine ⟨[RouteEvent.render h], ?_, ?_⟩
        · simp [handleRoute, hc, hm]
        · intro e he c2
          simp only [List.mem_singleton] at he
          subst he
          simp
    | none =>
        cases hnf : st.notFoundHandler with
        | some h =>
            refine ⟨[RouteEvent.render h], ?_, ?_⟩
            · simp [handleRoute, hc, hm, hnf]
            · intro e he c2
              simp only [List.mem_singleton] at he
              subst he
              simp
        | none =>
            refine ⟨[], ?_, ?_⟩
            · simp [handleRoute, hc, hm, hnf]
            · intro e he c2
              simp at he
  · intro h ps hm2
    simp [handleRoute, hc, hm2]

theorem handleRoute_cleanup_once_witness :
    ({ routes := [("/a", 0), ("/b", 1)], notFoundHandler := none,
       currentCleanup := some 7 } : RouterState).currentCleanup = some 7 ∧
    (∀ h, (fun _ : HandlerId => (none : Option CleanupId)) h ≠ some 7) ∧
    ∃ rest, (handleRoute (fun s => s) (fun _ : HandlerId => (none : Option CleanupId))
        { routes := [("/a", 0), ("/b", 1)], notFoundHandler := none,
          currentCleanup := some 7 } "/b").2
      = RouteEvent.cleanupRun 7 :: rest ∧
      ∀ e ∈ rest, ∀ c2, e ≠ RouteEvent.cleanupRun c2 :=
  ⟨rfl, fun h => by simp,
    (handleRoute_cleanup_once (fun s => s) (fun _ : HandlerId => (none : Option CleanupId))
      { routes := [("/a", 0), ("/b", 1)], notFoundHandler := none,
        currentCleanup := some 7 } "/b" 7 rfl (fun h => by simp)).1⟩

end Vibekit
